import Mathlib

/-!
Verification of the file-maintenance engine (Go) against its specification.

The development shallowly embeds the maintenance package:
- a lexical model of Go path handling (filepath.Clean / Rel / Join on
  Unix-style paths, represented as an absolute flag plus a list of
  components; the empty component list stands for the path ".");
- the destination-path builders buildBackupPath (internal/maintenance/backup.go)
  and backupDestPath (internal/maintenance/paths.go);
- the helpers IsFileOlder / DoesFileExist, the retry loop
  copyFileWithRetry with its backoff schedule, the streaming copy
  copyfileStream, the per-job body of the Worker processor goroutine,
  the log pruner RemoveOldLogs, and the directory reclamation
  cleanupEmptyDirs.

Filesystem and clock effects are passed in explicitly: every definition is
a pure function of the outcomes the corresponding syscalls would produce.
-/

deriving instance DecidableEq for Except

namespace FileMaintenance

/-- A filesystem path: whether it is absolute, plus its list of components
(separator-split segments). The empty relative path models the Go path
".". -/
structure GoPath where
  isAbs : Bool
  comps : List String
deriving DecidableEq

/-- One step of the lexical simplification performed by Go filepath.Clean:
"." and empty components are dropped; ".." pops the previous component
when one is available and is not itself "..", is dropped at the root of an
absolute path, and is kept (appended) otherwise. -/
def cleanStep (isAbs : Bool) (acc : List String) (c : String) : List String :=
  if c = "" ∨ c = "." then acc
  else if c = ".." then
    if acc ≠ [] ∧ acc.getLast? ≠ some ".." then acc.dropLast
    else if isAbs then acc
    else acc ++ [".."]
  else acc ++ [c]

/-- Model of Go filepath.Clean on the component list of a path. -/
def cleanComps (isAbs : Bool) (cs : List String) : List String :=
  cs.foldl (cleanStep isAbs) []

/-- Length of the longest common prefix of two component lists; used by the
model of filepath.Rel to position both paths at their first differing
elements. -/
def commonPrefixLen : List String → List String → Nat
  | a :: as, b :: bs => if a = b then commonPrefixLen as bs + 1 else 0
  | _, _ => 0

/-- Model of Go filepath.Rel: both arguments are cleaned; mixing an
absolute and a relative path is an error; equal cleaned paths yield ".";
otherwise the common prefix is stripped, a remaining ".." at the head of
the base is an error, and the result climbs out of the remaining base
components before descending into the remaining target components. -/
def goRel (base targ : GoPath) : Except String (List String) :=
  let b := cleanComps base.isAbs base.comps
  let t := cleanComps targ.isAbs targ.comps
  if base.isAbs ≠ targ.isAbs then
    .error "Rel: cannot make target relative to base"
  else if b = t then .ok []
  else
    let n := commonPrefixLen b t
    let rb := b.drop n
    let rt := t.drop n
    if rb.head? = some ".." then
      .error "Rel: cannot make target relative to base"
    else .ok (List.replicate rb.length ".." ++ rt)

/-- Model of Go filepath.Join of a path with further components: the
pieces are concatenated and the result is cleaned. -/
def goJoin (p : GoPath) (extra : List String) : GoPath :=
  ⟨p.isAbs, cleanComps p.isAbs (p.comps ++ extra)⟩

/-- A calendar date, as far as the Go layout string "02Jan06" observes
one. -/
structure GoDate where
  year : Nat
  month : Nat
  day : Nat
deriving DecidableEq

/-- English three-letter month abbreviations used by Go time formatting. -/
def monthAbbrev : Nat → String
  | 1 => "Jan"
  | 2 => "Feb"
  | 3 => "Mar"
  | 4 => "Apr"
  | 5 => "May"
  | 6 => "Jun"
  | 7 => "Jul"
  | 8 => "Aug"
  | 9 => "Sep"
  | 10 => "Oct"
  | 11 => "Nov"
  | _ => "Dec"

/-- Zero-padded two-digit rendering of a small number, as in the Go layout
components "02" and "06". -/
def pad2 (n : Nat) : String :=
  if n < 10 then "0" ++ toString n else toString n

/-- Model of time.Time.Format with layout "02Jan06": day (two digits),
English month abbreviation, year modulo 100 (two digits). -/
def formatDDMmmYY (d : GoDate) : String :=
  pad2 d.day ++ monthAbbrev d.month ++ pad2 (d.year % 100)

/-- Model of buildBackupPath (internal/maintenance/backup.go): the date
folder is formatted from the clock value observed at this call, the
relative path of the source under its folder root is computed with
filepath.Rel, and the destination is the join
backupRoot/dateFolder/relPath. No containment check is performed on the
relative path. -/
def buildBackupPath (now : GoDate) (backupRoot folder srcPath : GoPath) :
    Except String GoPath :=
  match goRel folder srcPath with
  | .error e => .error e
  | .ok relPath => .ok (goJoin backupRoot (formatDDMmmYY now :: relPath))

/-- Model of backupDestPath (internal/maintenance/paths.go): the relative
path of the source under the source root is computed, cleaned, and
rejected when it is ".." or begins with ".." plus the separator; otherwise
the destination is the join of the backup root with the validated relative
path. -/
def backupDestPath (backupRoot srcRoot srcFull : GoPath) :
    Except String GoPath :=
  match goRel srcRoot srcFull with
  | .error e => .error e
  | .ok rel0 =>
    let rel := cleanComps false rel0
    if rel = [".."] ∨ (rel.head? = some ".." ∧ 2 ≤ rel.length) then
      .error "source path escapes srcRoot"
    else .ok (goJoin backupRoot rel)

/-- Possible outcomes of an os.Stat call, at the granularity DoesFileExist
distinguishes: success, an error satisfying os.IsNotExist, or any other
error (permission denied, I/O error on a parent directory, ...). -/
inductive StatResult where
  | statOk : StatResult
  | errNotExist : StatResult
  | errOther : StatResult
deriving DecidableEq

/-- Model of DoesFileExist (maintenance package): true when os.Stat
succeeds, false only when the error satisfies os.IsNotExist, and true for
every other error. -/
def DoesFileExist : StatResult → Bool
  | .statOk => true
  | .errNotExist => false
  | .errOther => true

/-- Nanoseconds per day, the granularity of Go time.Duration. -/
def nsPerDay : Int := 86400000000000

/-- The age cutoff used by IsFileOlder: the clock value observed now, moved
back by the given number of days. The Go code computes it with
time.Now().AddDate(0, 0, -days); the calendar arithmetic is modelled as a
shift by whole days, which the claims (all about the strict comparison
against the cutoff) do not distinguish. -/
def cutoffTime (now : Int) (days : Int) : Int :=
  now - days * nsPerDay

/-- Model of IsFileOlder (maintenance package): the file is old exactly
when its modification time is strictly before the cutoff
(ModTime().Before(cutoff)). -/
def IsFileOlder (modTime : Int) (now : Int) (days : Int) : Bool :=
  modTime < cutoffTime now days

/-- Model of the per-file decision of the Worker walkers: a FileJob is
enqueued for a regular file exactly when IsFileOlder accepts it (both the
single-file-root branch and the WalkDir branch guard the enqueue with
IsFileOlder alone). -/
def walkerEmitsFile (modTime : Int) (now : Int) (days : Int) : Bool :=
  IsFileOlder modTime now days

/-- Model of backoffForAttempt (internal/maintenance/backup.go), in
milliseconds: 250 for attempt 0, 1000 for attempt 1, 3000 for every later
attempt. -/
def backoffForAttempt (attempt : Nat) : Nat :=
  match attempt with
  | 0 => 250
  | 1 => 1000
  | _ + 2 => 3000

/-- Observable trace of one copyFileWithRetry invocation: how many copy
attempts ran, the sleeps performed between attempts (in order, in
milliseconds), and whether the call returned nil. -/
structure RetryTrace where
  attempts : Nat
  sleeps : List Nat
  success : Bool
deriving DecidableEq

/-- The loop body of copyFileWithRetry, indexed by the current attempt
number and the number of attempts still allowed after this one
(remaining = retries - attempt, so that the loop guard attempt <= retries
and the retry guard attempt < retries become the structure of remaining).
The fails argument gives the outcome of copyfileStream at each attempt;
the context is never cancelled in this model, matching the regime the
claims describe. -/
def copyRetryGo (fails : Nat → Bool) (attempt : Nat) : Nat → RetryTrace
  | 0 =>
    if fails attempt then ⟨1, [], false⟩ else ⟨1, [], true⟩
  | remaining + 1 =>
    if fails attempt then
      let t := copyRetryGo fails (attempt + 1) remaining
      ⟨t.attempts + 1, backoffForAttempt attempt :: t.sleeps, t.success⟩
    else ⟨1, [], true⟩

/-- Model of copyFileWithRetry (internal/maintenance/backup.go): run the
attempt loop starting from attempt 0 with retries further attempts
allowed. -/
def copyFileWithRetry (fails : Nat → Bool) (retries : Nat) : RetryTrace :=
  copyRetryGo fails 0 retries

/-- Outcomes of the individual syscalls inside one copyfileStream call:
os.MkdirAll on the destination directory, os.Open on the source,
os.OpenFile on the temp file, io.CopyBuffer, the explicit out.Close, and
os.Rename. -/
structure StreamEnv where
  mkdirOK : Bool
  openSrcOK : Bool
  openTmpOK : Bool
  writeOK : Bool
  closeWorks : Bool
  renameOK : Bool
deriving DecidableEq

/-- Result of one copyfileStream call: whether it returned nil, and
whether the temporary file dstPath + ".tmp" still exists when it
returns. -/
structure StreamResult where
  returnedNil : Bool
  tmpLeft : Bool
deriving DecidableEq

/-- Model of copyfileStream (internal/maintenance/backup.go). The deferred
handler closes the temp handle and removes the temp file only while the
closeOK flag is still false; the flag is set to true after the explicit
out.Close succeeds, immediately before the rename. Failures before the
temp file is created trivially leave no temp file behind. -/
def copyfileStream (e : StreamEnv) : StreamResult :=
  if ¬ e.mkdirOK then ⟨false, false⟩
  else if ¬ e.openSrcOK then ⟨false, false⟩
  else if ¬ e.openTmpOK then ⟨false, false⟩
  else if ¬ e.writeOK then ⟨false, false⟩
  else if ¬ e.closeWorks then ⟨false, false⟩
  else if ¬ e.renameOK then ⟨false, true⟩
  else ⟨true, false⟩

/-- Filesystem outcomes one Worker job can observe: the os.Stat outcome at
the destination inside DoesFileExist, whether a file is actually present
at the destination (ground truth, which an errOther stat outcome does not
reveal), the per-attempt outcomes of copyfileStream, and the outcome of
DeleteFile on the source. -/
structure JobEnv where
  dstStat : StatResult
  dstHasFile : Bool
  copyFails : Nat → Bool
  deleteOK : Bool

/-- What one iteration of the Worker processor loop did with a job:
whether the global processed counter was incremented, whether a copy
succeeded in this iteration, whether DeleteFile was invoked and whether it
succeeded, whether the per-folder deleted counter was incremented, and
whether cleanupEmptyDirs was invoked. -/
structure JobOutcome where
  processedIncr : Bool
  copied : Bool
  deleteAttempted : Bool
  deleted : Bool
  perFolderIncr : Bool
  cleanupInvoked : Bool
deriving DecidableEq

/-- The delete phase of the processor loop: DeleteFile is invoked; on
success the per-folder counter is incremented and cleanupEmptyDirs is
invoked; in both cases the processed counter is incremented afterwards. -/
def deletePhase (e : JobEnv) (copied : Bool) : JobOutcome :=
  if e.deleteOK then
    ⟨true, copied, true, true, true, true⟩
  else
    ⟨true, copied, true, false, false, false⟩

/-- Model of one iteration of the Worker processor goroutine
(maintenance package) for a dequeued job, after the stop-condition check
passed: build the destination path (on error, continue without any
increment); when backup is enabled, skip the copy when DoesFileExist
reports the destination present, and on copy failure after all retries
continue without deleting and without any increment; otherwise run the
delete phase. -/
def handleJob (now : GoDate) (backupRoot : GoPath) (backup : Bool)
    (folderRoot srcPath : GoPath) (e : JobEnv) (retries : Nat) : JobOutcome :=
  match buildBackupPath now backupRoot folderRoot srcPath with
  | .error _ => ⟨false, false, false, false, false, false⟩
  | .ok _ =>
    if backup then
      if DoesFileExist e.dstStat then
        deletePhase e false
      else if (copyFileWithRetry e.copyFails retries).success then
        deletePhase e true
      else ⟨false, false, false, false, false, false⟩
    else deletePhase e false

/-- One entry of the log directory as RemoveOldLogs observes it: its name,
whether it is a directory, whether entry.Info() succeeds, its modification
time, and whether os.Remove on it succeeds. -/
structure LogEntry where
  name : String
  isDir : Bool
  infoOK : Bool
  modTime : Int
  removeOK : Bool
deriving DecidableEq

/-- Filesystem outcomes RemoveOldLogs can observe on the log directory:
the os.Stat outcome (none means stat failed), whether os.MkdirAll would
succeed, whether os.ReadDir succeeds, and the entries it returns. -/
structure LogDirEnv where
  statRes : Option Bool
  mkdirOK : Bool
  readOK : Bool
  entries : List LogEntry
deriving DecidableEq

/-- The per-entry loop of RemoveOldLogs, accumulating the names of the
files actually removed: directories are skipped, entries whose Info call
fails are skipped, old files are removed when os.Remove succeeds, and
per-file removal failures are skipped without failing the run. -/
def pruneEntries (now : Int) (days : Int) : List LogEntry → List String
  | [] => []
  | en :: rest =>
    if en.isDir then pruneEntries now days rest
    else if ¬ en.infoOK then pruneEntries now days rest
    else if IsFileOlder en.modTime now days then
      if en.removeOK then en.name :: pruneEntries now days rest
      else pruneEntries now days rest
    else pruneEntries now days rest

/-- Model of RemoveOldLogs (maintenance package): when os.Stat on the log
directory fails, create it and return success (nothing to prune) or fail
when the creation fails; when the path is not a directory or cannot be
read, fail; otherwise sweep the top-level entries and return the names of
the removed files. -/
def RemoveOldLogs (now : Int) (days : Int) (e : LogDirEnv) :
    Except String (List String) :=
  match e.statRes with
  | none =>
    if e.mkdirOK then .ok [] else .error "create log path"
  | some isDir =>
    if ¬ isDir then .error "log path is not a directory"
    else if ¬ e.readOK then .error "read log folder contents"
    else .ok (pruneEntries now days e.entries)

/-- Model of samePath (maintenance package): absolute paths compared
case-insensitively (strings.EqualFold after filepath.Abs). Paths in the
model are already absolute component lists, so filepath.Abs is the
identity and EqualFold is componentwise lower-casing. -/
def samePath (a b : List String) : Bool :=
  a.map String.toLower == b.map String.toLower

/-- What cleanupEmptyDirs can observe about one directory: the result of
isDirEmpty (none means os.ReadDir failed) and whether os.Remove on it
succeeds. -/
structure DirInfo where
  emptyRes : Option Bool
  removeOK : Bool

/-- The upward loop of cleanupEmptyDirs, returning the directories removed
in order. The fuel argument bounds the ascent: filepath.Dir strictly
shortens every non-root path, and a filesystem root is its own parent, so
re-reading a just-removed root fails and stops the loop; starting the fuel
at length + 1 makes the fuel-exhausted base case unreachable for the
chains the Worker produces. -/
def cleanupGo (env : List String → DirInfo) (stop : List String) :
    Nat → List String → List (List String)
  | 0, _ => []
  | fuel + 1, cur =>
    if samePath cur stop then []
    else
      match (env cur).emptyRes with
      | none => []
      | some false => []
      | some true =>
        if (env cur).removeOK then
          cur :: cleanupGo env stop fuel cur.dropLast
        else []

/-- Model of cleanupEmptyDirs (maintenance package): starting at the
parent of the deleted file, remove empty directories and ascend, stopping
at the configured folder root (samePath), on a read error, on a non-empty
directory, or on a removal failure. -/
def cleanupEmptyDirs (env : List String → DirInfo)
    (startDir stopDir : List String) : List (List String) :=
  cleanupGo env stopDir (startDir.length + 1) startDir

/-- A path component is normal when the lexical cleaning treats it as an
ordinary name: not empty, not ".", not "..". -/
def NormalComp (c : String) : Prop :=
  c ≠ "" ∧ c ≠ "." ∧ c ≠ ".."

/-- Shape of a cleaned relative path: a block of leading ".." components
followed by normal components only. -/
def RelShape (l : List String) : Prop :=
  ∃ k rest, l = List.replicate k ".." ++ rest ∧ ∀ c ∈ rest, NormalComp c

/-- Checks that a removal trace ascends one level at a time: the first
removed directory is the walk's current directory and each later one is
the parent of its predecessor. -/
def ascChainB : List String → List (List String) → Bool
  | _, [] => true
  | c, p :: ps => (p == c) && ascChainB c.dropLast ps

/-- The directory at which the upward walk of cleanupEmptyDirs stands
after performing the given removals, starting from the given directory. -/
def endCur : List String → List (List String) → List String
  | c, [] => c
  | _, p :: ps => endCur p.dropLast ps

/-- The conditions under which the cleanupEmptyDirs loop returns: the
current directory is the configured root (samePath), reading it failed,
it is not empty, or it is empty but its removal failed. -/
def stopsWalk (env : List String → DirInfo) (stop cur : List String) : Prop :=
  samePath cur stop = true ∨ (env cur).emptyRes = none ∨
    (env cur).emptyRes = some false ∨
    ((env cur).emptyRes = some true ∧ (env cur).removeOK = false)

/-- A concrete directory layout for exercising cleanupEmptyDirs: every
directory more than two levels deep is empty and removable, everything at
depth two or less is non-empty. -/
def calEnv : List String → DirInfo :=
  fun p => if 2 < p.length then ⟨some true, true⟩ else ⟨some false, true⟩

example : cleanComps false ["a", "..", "b", "file.txt"] = ["b", "file.txt"] := by
  decide

example :
    goRel ⟨true, ["src", "sub"]⟩ ⟨true, ["evil.txt"]⟩ =
      .ok ["..", "..", "evil.txt"] := by decide

example :
    buildBackupPath ⟨2026, 1, 30⟩ ⟨true, ["bk"]⟩ ⟨true, ["src"]⟩
      ⟨true, ["src", "a.txt"]⟩ = .ok ⟨true, ["bk", "30Jan26", "a.txt"]⟩ := by
  decide

example :
    backupDestPath ⟨true, ["bk"]⟩ ⟨true, ["src", "sub"]⟩ ⟨true, ["evil.txt"]⟩ =
      .error "source path escapes srcRoot" := by decide

/-- C5: the claim states that any failing step of the streaming copy
removes the temporary file before returning. The code contradicts its own
documentation: when every step up to the final rename succeeds, the
closeOK flag is already set, so a rename failure returns with the
temporary file still present. Write and close failures do remove it. -/
theorem c5_rename_failure_leaves_tmp :
    copyfileStream ⟨true, true, true, true, true, false⟩ =
      ⟨false, true⟩ ∧
    copyfileStream ⟨true, true, true, false, true, true⟩ =
      ⟨false, false⟩ ∧
    copyfileStream ⟨true, true, true, true, false, true⟩ =
      ⟨false, false⟩ := by decide

/-- C7: a file is eligible (the walker enqueues a FileJob for it) exactly
when its modification time is strictly before the cutoff, and a file whose
modification time equals the cutoff is not eligible. -/
theorem c7_strict_age_cutoff :
    ∀ now days modTime : Int,
      (walkerEmitsFile modTime now days = true ↔
        modTime < cutoffTime now days) ∧
      walkerEmitsFile (cutoffTime now days) now days = false := by
  intro now days modTime
  constructor
  · simp [walkerEmitsFile, IsFileOlder]
  · simp [walkerEmitsFile, IsFileOlder]

/-- C7 witness: with retention 0 a file one nanosecond old is eligible. -/
theorem c7_strict_age_cutoff_witness :
    walkerEmitsFile (-1) 0 0 = true :=
  (c7_strict_age_cutoff 0 0 (-1)).1.mpr (by decide)

/-- C10: when os.Stat at the destination fails with an error that is not
not-exist, DoesFileExist reports true, so a backup-enabled job skips the
copy and proceeds straight to deleting the source. -/
theorem c10_stat_error_skips_copy_and_deletes :
    ∀ (now : GoDate) (bk fr sp dst : GoPath) (e : JobEnv) (retries : Nat),
      e.dstStat = .errOther →
      buildBackupPath now bk fr sp = .ok dst →
      DoesFileExist e.dstStat = true ∧
      (handleJob now bk true fr sp e retries).copied = false ∧
      (handleJob now bk true fr sp e retries).deleteAttempted = true ∧
      (handleJob now bk true fr sp e retries).deleted = e.deleteOK := by
  intro now bk fr sp dst e retries hstat hbuild
  have hex : DoesFileExist e.dstStat = true := by rw [hstat]; rfl
  refine ⟨hex, ?_, ?_, ?_⟩ <;>
    · simp only [handleJob, hbuild, hex, if_true]
      cases hdel : e.deleteOK <;> simp [deletePhase, hdel]

/-- C10 witness: a concrete backup-enabled job whose destination stat
fails with a permission-style error is deleted without any copy. -/
theorem c10_stat_error_skips_copy_and_deletes_witness :
    DoesFileExist
        (JobEnv.dstStat ⟨.errOther, false, fun _ => true, true⟩) = true ∧
    (handleJob ⟨2026, 1, 30⟩ ⟨true, ["bk"]⟩ true ⟨true, ["src"]⟩
        ⟨true, ["src", "a.txt"]⟩ ⟨.errOther, false, fun _ => true, true⟩
        3).copied = false ∧
    (handleJob ⟨2026, 1, 30⟩ ⟨true, ["bk"]⟩ true ⟨true, ["src"]⟩
        ⟨true, ["src", "a.txt"]⟩ ⟨.errOther, false, fun _ => true, true⟩
        3).deleteAttempted = true ∧
    (handleJob ⟨2026, 1, 30⟩ ⟨true, ["bk"]⟩ true ⟨true, ["src"]⟩
        ⟨true, ["src", "a.txt"]⟩ ⟨.errOther, false, fun _ => true, true⟩
        3).deleted =
      JobEnv.deleteOK ⟨.errOther, false, fun _ => true, true⟩ :=
  c10_stat_error_skips_copy_and_deletes ⟨2026, 1, 30⟩ ⟨true, ["bk"]⟩
    ⟨true, ["src"]⟩ ⟨true, ["src", "a.txt"]⟩
    ⟨true, ["bk", "30Jan26", "a.txt"]⟩
    ⟨.errOther, false, fun _ => true, true⟩ 3 rfl (by decide)

/-- C1 counterexample: a backup-enabled job whose destination stat fails
with a non-not-exist error while no file is present at the destination is
deleted without any copy being made, so the source is deleted although the
backup flag is true and no successful copy exists at the computed
destination. -/
theorem c1_counterexample :
    JobEnv.dstHasFile ⟨.errOther, false, fun _ => true, true⟩ = false ∧
    (handleJob ⟨2026, 1, 30⟩ ⟨true, ["bk"]⟩ true ⟨true, ["src"]⟩
        ⟨true, ["src", "a.txt"]⟩ ⟨.errOther, false, fun _ => true, true⟩
        3).copied = false ∧
    (handleJob ⟨2026, 1, 30⟩ ⟨true, ["bk"]⟩ true ⟨true, ["src"]⟩
        ⟨true, ["src", "a.txt"]⟩ ⟨.errOther, false, fun _ => true, true⟩
        3).deleted = true := by decide

/-- C1 (amended): a job's source deletion is attempted only if the backup
flag is false, or the copy succeeded in this iteration, or the
destination-existence check returned true (which a non-not-exist stat
error makes happen without a copy being present); and a copy failure after
all retries skips the job with no delete. -/
theorem c1_delete_requires_backup_evidence :
    ∀ (now : GoDate) (bk : GoPath) (backup : Bool) (fr sp : GoPath)
      (e : JobEnv) (retries : Nat),
      ((handleJob now bk backup fr sp e retries).deleted = true →
        backup = false ∨
          (handleJob now bk backup fr sp e retries).copied = true ∨
          DoesFileExist e.dstStat = true) ∧
      (backup = true → DoesFileExist e.dstStat = false →
        (copyFileWithRetry e.copyFails retries).success = false →
        (handleJob now bk backup fr sp e retries).deleteAttempted = false ∧
        (handleJob now bk backup fr sp e retries).deleted = false) := by
  intro now bk backup fr sp e retries
  cases hb : buildBackupPath now bk fr sp <;>
    cases backup <;>
    cases hex : DoesFileExist e.dstStat <;>
    cases hcp : (copyFileWithRetry e.copyFails retries).success <;>
    cases hdel : e.deleteOK <;>
    simp [handleJob, hb, hex, hcp, deletePhase, hdel]

/-- C1 witness: a concrete backup-enabled job whose copy fails on every
attempt is skipped without a delete. -/
theorem c1_delete_requires_backup_evidence_witness :
    (handleJob ⟨2026, 1, 30⟩ ⟨true, ["bk"]⟩ true ⟨true, ["src"]⟩
        ⟨true, ["src", "a.txt"]⟩ ⟨.errNotExist, false, fun _ => true, true⟩
        1).deleteAttempted = false ∧
    (handleJob ⟨2026, 1, 30⟩ ⟨true, ["bk"]⟩ true ⟨true, ["src"]⟩
        ⟨true, ["src", "a.txt"]⟩ ⟨.errNotExist, false, fun _ => true, true⟩
        1).deleted = false :=
  (c1_delete_requires_backup_evidence ⟨2026, 1, 30⟩ ⟨true, ["bk"]⟩ true
      ⟨true, ["src"]⟩ ⟨true, ["src", "a.txt"]⟩
      ⟨.errNotExist, false, fun _ => true, true⟩ 1).2
    rfl (by decide) (by decide)

/-- C2: the claim (and the worker's own counting notes) say the processed
counter increments once per handled job, in particular on copy failure
after final retry and on destination-path-construction failure. The code
instead reaches continue before the increment on both paths: a job whose
copy fails on every attempt, and a job whose folder root is relative while
its source is absolute (filepath.Rel error), each leave every counter
untouched. -/
theorem c2_copy_failure_skips_processed_count :
    (handleJob ⟨2026, 1, 30⟩ ⟨true, ["bk"]⟩ true ⟨true, ["src"]⟩
        ⟨true, ["src", "a.txt"]⟩ ⟨.errNotExist, false, fun _ => true, true⟩
        2).processedIncr = false ∧
    (handleJob ⟨2026, 1, 30⟩ ⟨true, ["bk"]⟩ true ⟨false, ["src"]⟩
        ⟨true, ["src", "a.txt"]⟩ ⟨.errNotExist, false, fun _ => false, true⟩
        2).processedIncr = false := by decide

/-- C4 counterexample: the date folder of the destination is recomputed
from the clock at every buildBackupPath call, so two jobs of one run
processed on consecutive days are sent to different date folders; no label
captured at run start exists in the code (Worker passes no such value). -/
theorem c4_counterexample :
    buildBackupPath ⟨2026, 1, 30⟩ ⟨true, ["bk"]⟩ ⟨true, ["src"]⟩
        ⟨true, ["src", "a.txt"]⟩ =
      .ok ⟨true, ["bk", "30Jan26", "a.txt"]⟩ ∧
    buildBackupPath ⟨2026, 1, 31⟩ ⟨true, ["bk"]⟩ ⟨true, ["src"]⟩
        ⟨true, ["src", "a.txt"]⟩ =
      .ok ⟨true, ["bk", "31Jan26", "a.txt"]⟩ ∧
    buildBackupPath ⟨2026, 1, 30⟩ ⟨true, ["bk"]⟩ ⟨true, ["src"]⟩
        ⟨true, ["src", "a.txt"]⟩ ≠
      buildBackupPath ⟨2026, 1, 31⟩ ⟨true, ["bk"]⟩ ⟨true, ["src"]⟩
        ⟨true, ["src", "a.txt"]⟩ := by decide

/-- C4 (amended): every destination path uses the DDMmmYY label formatted
from the clock value observed at that buildBackupPath call, so backups of
one run share one date folder exactly when their jobs are processed on the
same calendar day. -/
theorem c4_label_computed_per_call :
    ∀ (now : GoDate) (bk fr sp : GoPath) (rel : List String),
      goRel fr sp = .ok rel →
      buildBackupPath now bk fr sp =
        .ok (goJoin bk (formatDDMmmYY now :: rel)) := by
  intro now bk fr sp rel h
  simp [buildBackupPath, h]

/-- C4 witness: a concrete call uses the label of its own clock value. -/
theorem c4_label_computed_per_call_witness :
    buildBackupPath ⟨2026, 1, 30⟩ ⟨true, ["bk"]⟩ ⟨true, ["src"]⟩
        ⟨true, ["src", "a.txt"]⟩ =
      .ok (goJoin ⟨true, ["bk"]⟩ (formatDDMmmYY ⟨2026, 1, 30⟩ :: ["a.txt"])) :=
  c4_label_computed_per_call ⟨2026, 1, 30⟩ ⟨true, ["bk"]⟩ ⟨true, ["src"]⟩
    ⟨true, ["src", "a.txt"]⟩ ["a.txt"] (by decide)

/-- Every run of the retry loop performs at least one copy attempt. -/
theorem copyRetryGo_attempts_pos (fails : Nat → Bool) :
    ∀ remaining attempt, 1 ≤ (copyRetryGo fails attempt remaining).attempts := by
  intro remaining
  induction remaining with
  | zero =>
    intro attempt
    by_cases h : fails attempt = true <;> simp [copyRetryGo, h]
  | succ r ih =>
    intro attempt
    by_cases h : fails attempt = true <;> simp [copyRetryGo, h]

/-- The retry loop starting at a given attempt performs at most
remaining + 1 further attempts, and its sleeps are exactly the backoff
values of the attempts it failed and retried, in order. -/
theorem copyRetryGo_spec (fails : Nat → Bool) :
    ∀ remaining attempt,
      (copyRetryGo fails attempt remaining).attempts ≤ remaining + 1 ∧
      (copyRetryGo fails attempt remaining).sleeps =
        (List.range' attempt
          ((copyRetryGo fails attempt remaining).attempts - 1)).map
          backoffForAttempt := by
  intro remaining
  induction remaining with
  | zero =>
    intro attempt
    by_cases h : fails attempt = true <;> simp [copyRetryGo, h]
  | succ r ih =>
    intro attempt
    by_cases h : fails attempt = true
    · have hpos := copyRetryGo_attempts_pos fails r (attempt + 1)
      obtain ⟨hle, hsl⟩ := ih (attempt + 1)
      obtain ⟨k, hk⟩ : ∃ k,
          (copyRetryGo fails (attempt + 1) r).attempts = k + 1 :=
        ⟨(copyRetryGo fails (attempt + 1) r).attempts - 1, by omega⟩
      constructor
      · simp only [copyRetryGo, h, if_true]
        omega
      · simp only [copyRetryGo, h, if_true]
        rw [hsl, hk]
        simp [List.range'_succ]
    · simp [copyRetryGo, h]

/-- C6: copyFileWithRetry attempts the copy at most retries + 1 times, the
waits between consecutive attempts follow the schedule of
backoffForAttempt (250 ms after attempt 0, 1 s after attempt 1, 3 s after
every attempt numbered 2 or higher), and the schedule is monotone and
capped at 3 s. -/
theorem c6_retry_count_and_backoff :
    ∀ (fails : Nat → Bool) (retries : Nat),
      (copyFileWithRetry fails retries).attempts ≤ retries + 1 ∧
      (copyFileWithRetry fails retries).sleeps =
        (List.range ((copyFileWithRetry fails retries).attempts - 1)).map
          backoffForAttempt ∧
      backoffForAttempt 0 = 250 ∧
      backoffForAttempt 1 = 1000 ∧
      (∀ n, 2 ≤ n → backoffForAttempt n = 3000) ∧
      (∀ m n, m ≤ n → backoffForAttempt m ≤ backoffForAttempt n) := by
  intro fails retries
  obtain ⟨hle, hsl⟩ := copyRetryGo_spec fails retries 0
  refine ⟨hle, ?_, rfl, rfl, ?_, ?_⟩
  · rw [List.range_eq_range']
    exact hsl
  · intro n hn
    match n, hn with
    | n + 2, _ => rfl
  · intro m n hmn
    rcases m with _ | _ | m <;> rcases n with _ | _ | n <;>
      simp only [backoffForAttempt] <;> omega

/-- C6 witness: with three total attempts allowed and every attempt
failing, at most three attempts run and the late-attempt backoff is
3000 ms. -/
theorem c6_retry_count_and_backoff_witness :
    (copyFileWithRetry (fun _ => true) 2).attempts ≤ 3 ∧
    backoffForAttempt 5 = 3000 :=
  ⟨(c6_retry_count_and_backoff (fun _ => true) 2).1,
    (c6_retry_count_and_backoff (fun _ => true) 2).2.2.2.2.1 5 (by decide)⟩

/-- The prune sweep removes exactly the non-directory entries whose Info
call succeeds, whose modification time is strictly before the cutoff, and
whose removal succeeds. -/
theorem pruneEntries_eq_filter (now days : Int) :
    ∀ entries : List LogEntry,
      pruneEntries now days entries =
        (entries.filter fun en =>
          !en.isDir && en.infoOK && IsFileOlder en.modTime now days &&
            en.removeOK).map LogEntry.name := by
  intro entries
  induction entries with
  | nil => rfl
  | cons en rest ih =>
    cases hd : en.isDir <;>
      cases hi : en.infoOK <;>
        cases ho : IsFileOlder en.modTime now days <;>
          cases hr : en.removeOK <;>
            simp [pruneEntries, List.filter, hd, hi, ho, hr, ih]

/-- C9: when the log directory cannot be stat'ed, creating it yields
success with nothing removed; otherwise the pruner returns success and
removes exactly the top-level non-directory entries older than the cutoff
whose removal succeeded — directories are skipped and per-file failures
(Info or Remove) never fail the run. -/
theorem c9_prune_behavior :
    ∀ (now days : Int) (e : LogDirEnv),
      (e.statRes = none → e.mkdirOK = true →
        RemoveOldLogs now days e = .ok []) ∧
      (e.statRes = some true → e.readOK = true →
        RemoveOldLogs now days e =
          .ok ((e.entries.filter fun en =>
            !en.isDir && en.infoOK && IsFileOlder en.modTime now days &&
              en.removeOK).map LogEntry.name)) := by
  intro now days e
  constructor
  · intro hs hm
    simp [RemoveOldLogs, hs, hm]
  · intro hs hr
    simp [RemoveOldLogs, hs, hr, pruneEntries_eq_filter]

/-- C9 witness: a concrete sweep over a directory containing an old
removable file, a fresh file, a subdirectory, and an old file whose
removal fails, removes exactly the old removable file. -/
theorem c9_prune_behavior_witness :
    RemoveOldLogs 0 0
        ⟨some true, true, true,
          [⟨"old.log", false, true, -5, true⟩,
           ⟨"new.log", false, true, 5, true⟩,
           ⟨"sub", true, true, -5, true⟩,
           ⟨"locked.log", false, true, -5, false⟩]⟩ =
      .ok (([⟨"old.log", false, true, -5, true⟩,
             ⟨"new.log", false, true, 5, true⟩,
             ⟨"sub", true, true, -5, true⟩,
             ⟨"locked.log", false, true, -5, false⟩].filter
              fun en : LogEntry =>
                !en.isDir && en.infoOK && IsFileOlder en.modTime 0 0 &&
                  en.removeOK).map LogEntry.name) :=
  (c9_prune_behavior 0 0
      ⟨some true, true, true,
        [⟨"old.log", false, true, -5, true⟩,
         ⟨"new.log", false, true, 5, true⟩,
         ⟨"sub", true, true, -5, true⟩,
         ⟨"locked.log", false, true, -5, false⟩]⟩).2 rfl rfl

/-- On a skippable component (empty or ".") the cleaning step leaves the
accumulator unchanged. -/
theorem cleanStep_skip (b : Bool) (acc : List String) {c : String}
    (h : c = "" ∨ c = ".") : cleanStep b acc c = acc := by
  simp [cleanStep, h]

/-- On a ".." component the cleaning step is the three-way case of the
source: pop the last component when possible, drop at the root of an
absolute path, keep otherwise. -/
theorem cleanStep_dotdot (b : Bool) (acc : List String) :
    cleanStep b acc ".." =
      if acc ≠ [] ∧ acc.getLast? ≠ some ".." then acc.dropLast
      else if b then acc else acc ++ [".."] := by
  simp [cleanStep]

/-- On a normal component the cleaning step appends it. -/
theorem cleanStep_normal (b : Bool) (acc : List String) {c : String}
    (h : NormalComp c) : cleanStep b acc c = acc ++ [c] := by
  simp [cleanStep, h.1, h.2.1, h.2.2]

/-- One cleaning step on a relative path preserves the leading-dots
shape. -/
theorem relShape_cleanStep (acc : List String) (c : String)
    (h : RelShape acc) : RelShape (cleanStep false acc c) := by
  obtain ⟨k, rest, hacc, hrest⟩ := h
  by_cases h0 : c = "" ∨ c = "."
  · exact ⟨k, rest, by rw [cleanStep_skip false acc h0, hacc], hrest⟩
  · by_cases h1 : c = ".."
    · subst h1
      by_cases h2 : acc ≠ [] ∧ acc.getLast? ≠ some ".."
      · have hrest_ne : rest ≠ [] := by
          intro hnil
          subst hnil
          rcases Nat.eq_zero_or_pos k with hk | hk
          · subst hk
            simp [hacc] at h2
          · obtain ⟨k1, rfl⟩ : ∃ k1, k = k1 + 1 := ⟨k - 1, by omega⟩
            apply h2.2
            rw [hacc, List.append_nil, List.replicate_succ' k1,
              List.getLast?_concat]
        refine ⟨k, rest.dropLast, ?_, ?_⟩
        · rw [cleanStep_dotdot, if_pos h2, hacc,
            List.dropLast_append_of_ne_nil _ hrest_ne]
        · intro x hx
          exact hrest x (List.dropLast_subset rest hx)
      · have hrest_nil : rest = [] := by
          by_contra hne
          apply h2
          constructor
          · simp [hacc, hne]
          · rw [hacc, List.getLast?_append_of_ne_nil _ hne]
            intro hsome
            have hmem := List.mem_of_getLast?_eq_some hsome
            exact (hrest _ hmem).2.2 rfl
        refine ⟨k + 1, [], ?_, by intro x hx; cases hx⟩
        rw [cleanStep_dotdot, if_neg h2, if_neg (by simp), hacc, hrest_nil,
          List.append_nil, List.append_nil, List.replicate_succ' k]
    · have hc : NormalComp c :=
        ⟨fun he => h0 (Or.inl he), fun he => h0 (Or.inr he), h1⟩
      refine ⟨k, rest ++ [c], ?_, ?_⟩
      · rw [cleanStep_normal false acc hc, hacc, List.append_assoc]
      · intro x hx
        rcases List.mem_append.mp hx with hx | hx
        · exact hrest x hx
        · have : x = c := by simpa using hx
          subst this
          exact hc

/-- Cleaning a relative path always yields leading ".." components
followed by normal components. -/
theorem relShape_cleanComps (xs : List String) :
    RelShape (cleanComps false xs) := by
  suffices h : ∀ (ys acc : List String), RelShape acc →
      RelShape (ys.foldl (cleanStep false) acc) by
    exact h xs [] ⟨0, [], rfl, by intro x hx; cases hx⟩
  intro ys
  induction ys with
  | nil => intro acc hacc; exact hacc
  | cons c ys ih =>
    intro acc hacc
    exact ih _ (relShape_cleanStep acc c hacc)

/-- Folding the cleaning step over normal components appends them
unchanged. -/
theorem foldl_cleanStep_of_normal (b : Bool) :
    ∀ (ys acc : List String), (∀ c ∈ ys, NormalComp c) →
      ys.foldl (cleanStep b) acc = acc ++ ys := by
  intro ys
  induction ys with
  | nil => intro acc _; simp
  | cons c ys ih =>
    intro acc hnorm
    have hc : NormalComp c := hnorm c (by simp)
    have hstep : cleanStep b acc c = acc ++ [c] := by
      simp [cleanStep, hc.1, hc.2.1, hc.2.2]
    rw [List.foldl_cons, hstep, ih _ (fun x hx => hnorm x (by simp [hx]))]
    simp

/-- Cleaning distributes over an appended suffix as a continued fold. -/
theorem cleanComps_append (b : Bool) (xs ys : List String) :
    cleanComps b (xs ++ ys) = ys.foldl (cleanStep b) (cleanComps b xs) := by
  simp [cleanComps, List.foldl_append]

/-- C3 (amended): the guarded helper backupDestPath rejects every source
whose normalized relative path is ".." or begins with ".." plus the
separator, and each destination it does return lies within the backup root
(the cleaned backup-root components are a prefix of the destination
components). The processor itself calls buildBackupPath, which performs no
such check (see the counterexample). -/
theorem c3_backupDestPath_guard :
    ∀ bk srcRoot srcFull : GoPath,
      (∀ rel0, goRel srcRoot srcFull = .ok rel0 →
        (cleanComps false rel0).head? = some ".." →
        backupDestPath bk srcRoot srcFull =
          .error "source path escapes srcRoot") ∧
      (∀ dst, bk.isAbs = true → cleanComps true bk.comps = bk.comps →
        backupDestPath bk srcRoot srcFull = .ok dst →
        dst.isAbs = true ∧ bk.comps <+: dst.comps) := by
  intro bk srcRoot srcFull
  constructor
  · intro rel0 hrel hhead
    have hcond : cleanComps false rel0 = [".."] ∨
        ((cleanComps false rel0).head? = some ".." ∧
          2 ≤ (cleanComps false rel0).length) := by
      cases hc : cleanComps false rel0 with
      | nil => rw [hc] at hhead; cases hhead
      | cons a t =>
        rw [hc] at hhead
        have ha : a = ".." := by simpa using hhead
        subst ha
        cases t with
        | nil => exact Or.inl rfl
        | cons x xs => exact Or.inr ⟨rfl, by simp⟩
    simp [backupDestPath, hrel, hcond]
  · intro dst habs hclean hok
    cases hrel : goRel srcRoot srcFull with
    | error e => simp [backupDestPath, hrel] at hok
    | ok rel0 =>
      rw [backupDestPath, hrel] at hok
      by_cases hcond : cleanComps false rel0 = [".."] ∨
          ((cleanComps false rel0).head? = some ".." ∧
            2 ≤ (cleanComps false rel0).length)
      · simp [hcond] at hok
      · simp only [hcond, if_false] at hok
        obtain ⟨k, rest, heq, hrest⟩ := relShape_cleanComps rel0
        have hk : k = 0 := by
          by_contra hkne
          obtain ⟨k1, rfl⟩ : ∃ k1, k = k1 + 1 := ⟨k - 1, by omega⟩
          apply hcond
          have hhead : (cleanComps false rel0).head? = some ".." := by
            simp [heq, List.replicate_succ]
          cases hrest_nil : rest with
          | nil =>
            cases k1 with
            | zero => exact Or.inl (by simp [heq, hrest_nil])
            | succ k2 =>
              refine Or.inr ⟨hhead, ?_⟩
              simp [heq, hrest_nil, List.length_replicate]
          | cons r rs =>
            refine Or.inr ⟨hhead, ?_⟩
            simp [heq, hrest_nil, List.length_replicate]
            omega
        subst hk
        simp only [List.replicate, List.nil_append] at heq
        have hjoin : goJoin bk (cleanComps false rel0) =
            ⟨bk.isAbs, bk.comps ++ cleanComps false rel0⟩ := by
          simp only [goJoin, cleanComps_append]
          rw [foldl_cleanStep_of_normal bk.isAbs (cleanComps false rel0)
            (cleanComps bk.isAbs bk.comps)
            (by rw [heq]; exact hrest)]
          rw [show cleanComps bk.isAbs bk.comps = bk.comps by
            rw [habs]; exact hclean]
        rw [hjoin] at hok
        have hdst : dst = ⟨bk.isAbs, bk.comps ++ cleanComps false rel0⟩ := by
          injection hok with h
          exact h.symm
        subst hdst
        exact ⟨habs, ⟨cleanComps false rel0, rfl⟩⟩

/-- C3 witness: a source under a two-level root resolves to a destination
strictly inside the backup root, while an escaping source is rejected. -/
theorem c3_backupDestPath_guard_witness :
    GoPath.isAbs ⟨true, ["bk", "dest"]⟩ = true ∧
    GoPath.comps ⟨true, ["bk", "dest"]⟩ <+:
      GoPath.comps ⟨true, ["bk", "dest", "img", "a.jpg"]⟩ :=
  have h := (c3_backupDestPath_guard ⟨true, ["bk", "dest"]⟩
      ⟨true, ["data"]⟩ ⟨true, ["data", "img", "a.jpg"]⟩).2
    ⟨true, ["bk", "dest", "img", "a.jpg"]⟩ rfl (by decide) (by decide)
  ⟨h.1, h.2⟩

/-- C3 counterexample: the processor's destination construction does not
reject an escaping relative path: for a source outside its folder root,
filepath.Rel yields a ".."-prefixed relative path, buildBackupPath returns
it without error, the resulting destination lies outside the backup root,
and the processor then copies to it and deletes the source. -/
theorem c3_counterexample :
    goRel ⟨true, ["src", "sub"]⟩ ⟨true, ["evil.txt"]⟩ =
      .ok ["..", "..", "evil.txt"] ∧
    buildBackupPath ⟨2026, 1, 30⟩ ⟨true, ["bk"]⟩ ⟨true, ["src", "sub"]⟩
        ⟨true, ["evil.txt"]⟩ =
      .ok ⟨true, ["evil.txt"]⟩ ∧
    ¬ (["bk"] <+: ["evil.txt"]) ∧
    handleJob ⟨2026, 1, 30⟩ ⟨true, ["bk"]⟩ true ⟨true, ["src", "sub"]⟩
        ⟨true, ["evil.txt"]⟩ ⟨.errNotExist, false, fun _ => false, true⟩ 0 =
      ⟨true, true, true, true, true, true⟩ := by decide

/-- Two paths satisfy samePath exactly when their lower-cased components
agree. -/
theorem samePath_iff (a b : List String) :
    samePath a b = true ↔ a.map String.toLower = b.map String.toLower := by
  simp [samePath]

/-- A strict prefix is still a prefix after dropping the last element. -/
theorem isPrefix_dropLast_of_lt {α : Type} {l1 l2 : List α} (h : l1 <+: l2)
    (hlt : l1.length < l2.length) : l1 <+: l2.dropLast := by
  obtain ⟨t, rfl⟩ := h
  have ht : t ≠ [] := by
    intro h0
    subst h0
    simp at hlt
  rw [List.dropLast_append_of_ne_nil _ ht]
  exact ⟨t.dropLast, rfl⟩

/-- Invariant of the upward reclamation loop: under the hypothesis that
the configured root is a case-insensitive ancestor of the current
directory, every removed directory was empty and removable, lies strictly
below the root, and is itself a case-insensitive descendant of the root;
the removals ascend one level at a time; and the directory at which the
loop stands when it returns satisfies one of the documented stopping
conditions. -/
theorem cleanupGo_spec (env : List String → DirInfo) (stop : List String) :
    ∀ (fuel : Nat) (cur : List String),
      stop.map String.toLower <+: cur.map String.toLower →
      cur.length < fuel →
      (∀ p ∈ cleanupGo env stop fuel cur,
          (env p).emptyRes = some true ∧ (env p).removeOK = true ∧
          stop.length < p.length ∧
          stop.map String.toLower <+: p.map String.toLower ∧
          samePath p stop = false) ∧
      ascChainB cur (cleanupGo env stop fuel cur) = true ∧
      stopsWalk env stop (endCur cur (cleanupGo env stop fuel cur)) := by
  intro fuel
  induction fuel with
  | zero =>
    intro cur _ hlen
    omega
  | succ f ih =>
    intro cur hpre hlen
    by_cases hsame : samePath cur stop = true
    · rw [show cleanupGo env stop (f + 1) cur = [] by
        simp [cleanupGo, hsame]]
      exact ⟨(by intro p hp; cases hp), rfl, Or.inl hsame⟩
    · cases hres : (env cur).emptyRes with
      | none =>
        rw [show cleanupGo env stop (f + 1) cur = [] by
          simp [cleanupGo, hsame, hres]]
        exact ⟨(by intro p hp; cases hp), rfl, Or.inr (Or.inl hres)⟩
      | some b =>
        cases b with
        | false =>
          rw [show cleanupGo env stop (f + 1) cur = [] by
            simp [cleanupGo, hsame, hres]]
          exact ⟨(by intro p hp; cases hp), rfl,
            Or.inr (Or.inr (Or.inl hres))⟩
        | true =>
          by_cases hrm : (env cur).removeOK = true
          · have hcur_ne : cur ≠ [] := by
              intro h0
              subst h0
              have hstop : stop.map String.toLower = [] :=
                List.prefix_nil.mp (by simpa using hpre)
              have : stop = [] := by simpa using hstop
              subst this
              exact hsame rfl
            have hlt : stop.length < cur.length := by
              have hle : stop.length ≤ cur.length := by
                have := hpre.length_le
                simpa using this
              rcases Nat.lt_or_ge stop.length cur.length with h | h
              · exact h
              · exfalso
                apply hsame
                rw [samePath_iff]
                exact (hpre.eq_of_length
                  (by simpa using Nat.le_antisymm hle h)).symm
            have hpre' : stop.map String.toLower <+:
                (cur.dropLast).map String.toLower := by
              rw [List.map_dropLast]
              exact isPrefix_dropLast_of_lt hpre (by simpa using hlt)
            have hlen' : (cur.dropLast).length < f := by
              have : cur.length - 1 < f := by
                have h1 : 1 ≤ cur.length := by
                  cases cur with
                  | nil => exact absurd rfl hcur_ne
                  | cons a l => simp
                omega
              simpa [List.length_dropLast] using this
            obtain ⟨ihall, ihchain, ihstop⟩ := ih cur.dropLast hpre' hlen'
            have hsame' : samePath cur stop = false := by
              revert hsame
              cases samePath cur stop <;> simp
            rw [show cleanupGo env stop (f + 1) cur =
                cur :: cleanupGo env stop f cur.dropLast by
              simp [cleanupGo, hsame, hres, hrm]]
            refine ⟨?_, ?_, ?_⟩
            · intro p hp
              rcases List.mem_cons.mp hp with hp | hp
              · subst hp
                exact ⟨hres, hrm, hlt, hpre, hsame'⟩
              · exact ihall p hp
            · simp [ascChainB, ihchain]
            · exact ihstop
          · rw [show cleanupGo env stop (f + 1) cur = [] by
              simp [cleanupGo, hsame, hres, hrm]]
            have hrm' : (env cur).removeOK = false := by
              revert hrm
              cases (env cur).removeOK <;> simp
            exact ⟨(by intro p hp; cases hp), rfl,
              Or.inr (Or.inr (Or.inr ⟨hres, hrm'⟩))⟩

/-- C8: directory reclamation removes a directory only when it is empty
and its removal succeeds, ascends one parent level after each removal,
terminates exactly at a directory where the walk reached the configured
root (case-insensitive samePath), failed to read, found a non-empty
directory, or failed to remove, and — the root being a case-insensitive
ancestor of the starting directory, as it is for every Worker job — every
removed directory lies strictly below the root, so the root itself and
every directory above it is never removed. -/
theorem c8_reclamation_safety :
    ∀ (env : List String → DirInfo) (startDir stopDir : List String),
      stopDir.map String.toLower <+: startDir.map String.toLower →
      (∀ p ∈ cleanupEmptyDirs env startDir stopDir,
          (env p).emptyRes = some true ∧ (env p).removeOK = true ∧
          stopDir.length < p.length ∧
          stopDir.map String.toLower <+: p.map String.toLower ∧
          samePath p stopDir = false) ∧
      ascChainB startDir (cleanupEmptyDirs env startDir stopDir) = true ∧
      stopsWalk env stopDir
        (endCur startDir (cleanupEmptyDirs env startDir stopDir)) := by
  intro env startDir stopDir hpre
  exact cleanupGo_spec env stopDir (startDir.length + 1) startDir hpre
    (by omega)

/-- C8 witness: walking up from a directory two levels below its root, the
chain ascends one level at a time and the walk stops at one of the
documented conditions. -/
theorem c8_reclamation_safety_witness :
    ascChainB ["c:", "data", "a", "b"]
        (cleanupEmptyDirs calEnv ["c:", "data", "a", "b"] ["c:", "data"]) =
      true ∧
    stopsWalk calEnv ["c:", "data"]
      (endCur ["c:", "data", "a", "b"]
        (cleanupEmptyDirs calEnv ["c:", "data", "a", "b"] ["c:", "data"])) :=
  (c8_reclamation_safety calEnv ["c:", "data", "a", "b"] ["c:", "data"]
    (List.IsPrefix.map String.toLower
      (show ["c:", "data"] <+: ["c:", "data", "a", "b"] by decide))).2

end FileMaintenance
